import Mathlib

/-!
# Verification of the Rk_Bot OCR/MCQ core (`src/core/ocr_engine.py`, `src/core/pdf_handler.py`)

Shallow embedding of the Hindi-OCR pipeline: text is a `List Char` of Unicode
scalar values, mirroring Python's view of `str` as a sequence of code points.
Each definition transcribes one Python function or regular expression from the
source; the Python `re` patterns involved are simple enough (no backtracking is
ever observable for them) that they are transcribed as deterministic scanners.
`unicodedata.normalize('NFKC', ·)` is an external library call and is kept as
an explicit function parameter `nfkc` of `normalize_text`; concrete theorems
instantiate it with `id`, which agrees with real NFKC on every string they
mention (all their characters are NFKC-inert).
-/

/-- Python's whitespace class (`str.strip()` with no argument, and `\s` in
`re` patterns over `str`): the ASCII whitespace characters together with the
Unicode space/separator characters Python treats as whitespace. -/
def pyIsSpace (c : Char) : Bool :=
  c = ' ' || c = '\t' || c = '\n' || c = '\r' || c = '\x0b' || c = '\x0c' ||
  (0x1c ≤ c.toNat && c.toNat ≤ 0x1f) || c.toNat = 0x85 || c.toNat = 0xa0 ||
  c.toNat = 0x1680 || (0x2000 ≤ c.toNat && c.toNat ≤ 0x200a) ||
  c.toNat = 0x2028 || c.toNat = 0x2029 || c.toNat = 0x202f ||
  c.toNat = 0x205f || c.toNat = 0x3000

/-- Python's `\d` for the scripts this program handles: ASCII digits and
Devanagari digits U+0966–U+096F (both have Unicode category Nd). -/
def pyIsDigit (c : Char) : Bool :=
  ('0' ≤ c && c ≤ '9') || (0x966 ≤ c.toNat && c.toNat ≤ 0x96f)

/-- Python's `\w` (word character) restricted to the character repertoire this
program can see (ASCII and the Devanagari block): ASCII alphanumerics and
underscore, plus the Devanagari letters, digits and combining vowel
signs/candrabindu/anusvara/visarga (all `Alphabetic` in Unicode), excluding
the block's non-word code points: nukta U+093C, virama U+094D, the stress
marks U+0951–U+0954, the dandas U+0964/U+0965 and the abbreviation sign
U+0970. -/
def pyIsWord (c : Char) : Bool :=
  ('a' ≤ c && c ≤ 'z') || ('A' ≤ c && c ≤ 'Z') || ('0' ≤ c && c ≤ '9') ||
  c = '_' ||
  ((0x900 ≤ c.toNat && c.toNat ≤ 0x97f) &&
    !(c.toNat = 0x93c || c.toNat = 0x94d ||
      (0x951 ≤ c.toNat && c.toNat ≤ 0x954) ||
      c.toNat = 0x964 || c.toNat = 0x965 || c.toNat = 0x970))

/-- Trailing-whitespace trim (the right half of Python `str.strip()`). -/
def stripTrailing (l : List Char) : List Char :=
  (l.reverse.dropWhile pyIsSpace).reverse

/-- Python `str.strip()` with no arguments: drop leading and trailing
whitespace. -/
def pyStrip (l : List Char) : List Char :=
  stripTrailing (l.dropWhile pyIsSpace)

/-- The character class kept by `normalize_text`'s cleanup
`re.sub(r'[^\u0000-\u007Fऀ-ॿ\s]', '', ·)`: ASCII, the Devanagari
block, and whitespace.  Everything else is removed. -/
def keepChar (c : Char) : Bool :=
  c.toNat ≤ 0x7f || (0x900 ≤ c.toNat && c.toNat ≤ 0x97f) || pyIsSpace c

/-- One Python `str.replace(old, new)` with single-character `old`/`new`. -/
def replaceChar (k v : Char) (l : List Char) : List Char :=
  l.map fun c => if c = k then v else c

/-- The single-character substitution the `replacements` dict of
`normalize_text` performs on a character, with the replaces applied in the
dict's insertion order.  (The source dict literal writes the key `'\x22'`
twice — with values U+201C and U+201D — so the surviving entry is the later
one, `'\x22' ↦ U+201D`.)  Keys are ASCII and every value is non-ASCII, so no
replace can produce a later key. -/
def replFull (c : Char) : Char :=
  if c = '0' then '०' else if c = '1' then '१' else if c = '2' then '२' else
  if c = '3' then '३' else if c = '4' then '४' else if c = '5' then '५' else
  if c = '6' then '६' else if c = '7' then '७' else if c = '8' then '८' else
  if c = '9' then '९' else if c = '|' then '।' else if c = '-' then '—' else
  if c = Char.ofNat 0x60 then Char.ofNat 0x2018 else
  if c = Char.ofNat 0x27 then Char.ofNat 0x2019 else
  if c = Char.ofNat 0x22 then Char.ofNat 0x201d else c

/-- The `for old, new in replacements.items(): normalized.replace(old, new)`
loop of `normalize_text`, applied in dict insertion order. -/
def applyReplacements (l : List Char) : List Char :=
  replaceChar (Char.ofNat 0x22) (Char.ofNat 0x201d) <|
  replaceChar (Char.ofNat 0x27) (Char.ofNat 0x2019) <|
  replaceChar (Char.ofNat 0x60) (Char.ofNat 0x2018) <|
  replaceChar '-' '—' <| replaceChar '|' '।' <|
  replaceChar '9' '९' <| replaceChar '8' '८' <| replaceChar '7' '७' <|
  replaceChar '6' '६' <| replaceChar '5' '५' <| replaceChar '4' '४' <|
  replaceChar '3' '३' <| replaceChar '2' '२' <| replaceChar '1' '१' <|
  replaceChar '0' '०' l

/-- Scanner for `re.sub(r'\s+', ' ', ·)`.  The flag records whether we are
inside a whitespace run whose single replacement space was already emitted. -/
def collapseAux : Bool → List Char → List Char
  | _, [] => []
  | inRun, c :: rest =>
    if pyIsSpace c then
      if inRun then collapseAux true rest else ' ' :: collapseAux true rest
    else c :: collapseAux false rest

/-- `re.sub(r'\s+', ' ', ·)`: every maximal run of whitespace becomes one
single space. -/
def collapseWs (l : List Char) : List Char := collapseAux false l

/-- Scanner for `re.sub(r'\n\s*', '\n', ·)`.  The flag records whether we are
inside the `\s*` run absorbed after an emitted newline. -/
def normNlAux : Bool → List Char → List Char
  | _, [] => []
  | absorbing, c :: rest =>
    if absorbing && pyIsSpace c then normNlAux true rest
    else if c = '\n' then '\n' :: normNlAux true rest
    else c :: normNlAux false rest

/-- `re.sub(r'\n\s*', '\n', ·)`: a newline absorbs the whitespace run that
follows it. -/
def normNewlines (l : List Char) : List Char := normNlAux false l

/-- One `text.replace(m + ' ', m)` step of `fix_matras`: every (left-to-right,
non-overlapping) occurrence of the matra `m` followed by a space loses the
space. -/
def fixMatraOne (m : Char) : List Char → List Char
  | [] => []
  | [c] => [c]
  | c :: d :: rest =>
    if c = m && d = ' ' then c :: fixMatraOne m rest
    else c :: fixMatraOne m (d :: rest)

/-- The keys of the `matra_fixes` dict of `fix_matras`, in insertion order:
the vowel signs ा U+093E, े U+0947, ै U+0948, ो U+094B, ौ U+094C, ी U+0940. -/
def matraList : List Char :=
  [Char.ofNat 0x93e, Char.ofNat 0x947, Char.ofNat 0x948,
   Char.ofNat 0x94b, Char.ofNat 0x94c, Char.ofNat 0x940]

/-- `HindiOCREngine.fix_matras`: apply the matra-space fixes in dict order. -/
def fix_matras (text : List Char) : List Char :=
  matraList.foldl (fun acc m => fixMatraOne m acc) text

/-- `HindiOCREngine.normalize_text`.  `nfkc` stands for the external
`unicodedata.normalize('NFKC', ·)`; the remaining steps transcribe the source:
remove characters outside ASCII/Devanagari/whitespace, apply the replacement
dict, collapse whitespace runs (`\s+` → one space), normalize line breaks
(`\n\s*` → `\n`), fix matra spacing, and strip. -/
def normalize_text (nfkc : List Char → List Char) (text : List Char) : List Char :=
  pyStrip (fix_matras (normNewlines (collapseWs
    (applyReplacements ((nfkc text).filter keepChar)))))


/-! ## `HindiOCREngine.get_ocr_confidence` -/

/-- One token of the `pytesseract.image_to_data` dictionary: its reported
confidence (`data['conf'][i]`, sentinel `-1` for non-word boxes) and its text
(`data['text'][i]`). -/
structure OcrToken where
  conf : Int
  text : List Char
deriving DecidableEq, Repr

/-- The accumulation loop of `get_ocr_confidence`:
`for i, conf in enumerate(data['conf']): if conf != -1 and data['text'][i].strip(): confidences.append(int(conf))`. -/
def collectConfidences (data : List OcrToken) : List Int :=
  data.foldl
    (fun acc t => if t.conf ≠ -1 ∧ pyStrip t.text ≠ [] then acc ++ [t.conf] else acc)
    []

/-- `HindiOCREngine.get_ocr_confidence`, given the token data the external
`pytesseract.image_to_data` call returned: the mean of the collected
confidences, or `0` if none qualified.  The Python float division is modelled
exactly in `ℚ`. -/
def get_ocr_confidence (data : List OcrToken) : ℚ :=
  let confidences := collectConfidences data
  if confidences ≠ [] then (confidences.sum : ℚ) / (confidences.length : ℚ)
  else 0

/-! ## `PDFHandler.is_text_based` -/

/-- The test `PDFHandler.is_text_based` applies to the text one extraction
method yielded: `none` models the method raising an exception (caught and
treated as no text); on `some text` the source checks
`text.strip() and len(text.strip()) > 100`. -/
def extractedPasses (t : Option (List Char)) : Bool :=
  match t with
  | none => false
  | some text => !(pyStrip text).isEmpty && decide (100 < (pyStrip text).length)

/-- `PDFHandler.is_text_based`, as a function of the text produced by its two
extraction methods (`pdfminer.high_level.extract_text`, then page-wise
PyMuPDF `get_text`): classify as text-based iff either passes the threshold
test; the second method is only consulted when the first does not pass. -/
def is_text_based (pdfminerText fitzText : Option (List Char)) : Bool :=
  extractedPasses pdfminerText || extractedPasses fitzText

/-- Written from the spec's words, for comparison with `is_text_based`
(claim C6): the number of non-whitespace characters of an extracted text. -/
def specNonWsCount (t : List Char) : Nat :=
  (t.filter fun c => !pyIsSpace c).length

/-- Written from the spec's words, for comparison with `is_text_based`
(claim C6): classify text-native exactly when one of the two extraction
methods yields strictly more than 100 non-whitespace characters. -/
def specTextNative (pdfminerText fitzText : Option (List Char)) : Bool :=
  (match pdfminerText with
   | none => false
   | some t => decide (100 < specNonWsCount t)) ||
  (match fitzText with
   | none => false
   | some t => decide (100 < specNonWsCount t))

/-! ## `MCQDetector` -/

/-- One question record of `MCQDetector.extract_questions`'s output list. -/
structure Question where
  question_number : List Char
  question_text : List Char
  options : List (List Char)
  correct_answer : Option (List Char)
deriving DecidableEq, Repr

/-- Consume a literal character sequence, returning the remainder. -/
def litMatch : List Char → List Char → Option (List Char)
  | [], l => some l
  | _ :: _, [] => none
  | p :: ps, c :: cs => if c = p then litMatch ps cs else none

/-- `re.search`: try an anchored matcher at every start position, left to
right, and return the first success. -/
def reSearch (f : List Char → Option α) : List Char → Option α
  | [] => f []
  | c :: rest =>
    match f (c :: rest) with
    | some x => some x
    | none => reSearch f (rest)

/-- The literal `प्रश्न` (code points 92A 94D 930 936 94D 928). -/
def prashnaLit : List Char := "प्रश्न".toList

/-- Anchored matcher for the question pattern `प्रश्न\s*(\d+)\.`; returns the
captured digit group. -/
def qPat1At (l : List Char) : Option (List Char) :=
  match litMatch prashnaLit l with
  | none => none
  | some r =>
    let r := r.dropWhile pyIsSpace
    let ds := r.takeWhile pyIsDigit
    if ds = [] then none
    else
      match r.dropWhile pyIsDigit with
      | c :: _ => if c = '.' then some ds else none
      | [] => none

/-- Anchored matcher for the question pattern `Q\.?\s*(\d+)`. -/
def qPat2At (l : List Char) : Option (List Char) :=
  match l with
  | 'Q' :: r =>
    let r := match r with
      | c :: r2 => if c = '.' then r2 else c :: r2
      | [] => []
    let r := r.dropWhile pyIsSpace
    let ds := r.takeWhile pyIsDigit
    if ds = [] then none else some ds
  | _ => none

/-- Anchored matcher for the question pattern `(\d+)\.` (bare number). -/
def qPat3At (l : List Char) : Option (List Char) :=
  let ds := l.takeWhile pyIsDigit
  if ds = [] then none
  else
    match l.dropWhile pyIsDigit with
    | c :: _ => if c = '.' then some ds else none
    | [] => none

/-- Anchored matcher for the question pattern `\((\d+)\)`. -/
def qPat4At (l : List Char) : Option (List Char) :=
  match l with
  | '(' :: r =>
    let ds := r.takeWhile pyIsDigit
    if ds = [] then none
    else
      match r.dropWhile pyIsDigit with
      | c :: _ => if c = ')' then some ds else none
      | [] => none
  | _ => none

/-- The `question_patterns` loop of `extract_questions`: each pattern is tried
with `re.search` over the whole line, in list order, and the first pattern
that matches anywhere wins; the captured number group is returned. -/
def findQuestionNum (line : List Char) : Option (List Char) :=
  match reSearch qPat1At line with
  | some ds => some ds
  | none =>
    match reSearch qPat2At line with
    | some ds => some ds
    | none =>
      match reSearch qPat3At line with
      | some ds => some ds
      | none => reSearch qPat4At line

/-- The character class `[A-Da-d]` of the Latin option patterns. -/
def isOptLetter (c : Char) : Bool :=
  ('A' ≤ c && c ≤ 'D') || ('a' ≤ c && c ≤ 'd')

/-- The Devanagari option letters `क|ख|ग|घ|च|छ|ज|झ` (U+0915–U+091D). -/
def isDevOptLetter (c : Char) : Bool :=
  c = 'क' || c = 'ख' || c = 'ग' || c = 'घ' ||
  c = 'च' || c = 'छ' || c = 'ज' || c = 'झ'

/-- Anchored matcher (`re.match`) for the option pattern `[A-Da-d]\)`;
returns the length of the matched lead. -/
def oPat1At (l : List Char) : Option Nat :=
  match l with
  | c :: d :: _ => if isOptLetter c && d = ')' then some 2 else none
  | _ => none

/-- Anchored matcher for the option pattern `[A-Da-d]\.`. -/
def oPat2At (l : List Char) : Option Nat :=
  match l with
  | c :: d :: _ => if isOptLetter c && d = '.' then some 2 else none
  | _ => none

/-- Anchored matcher for the option pattern `\((क|ख|ग|घ|च|छ|ज|झ)\)`. -/
def oPat3At (l : List Char) : Option Nat :=
  match l with
  | c :: k :: d :: _ => if c = '(' && isDevOptLetter k && d = ')' then some 3 else none
  | _ => none

/-- Anchored matcher for the option pattern `(\d+)\.` used as an option lead. -/
def oPat4At (l : List Char) : Option Nat :=
  let ds := l.takeWhile pyIsDigit
  if ds = [] then none
  else
    match l.dropWhile pyIsDigit with
    | c :: _ => if c = '.' then some (ds.length + 1) else none
    | [] => none

/-- The `option_patterns` loop of `extract_questions`: each pattern is tried
with `re.match` (anchored at the line start), in list order; the length of
`match.group(0)` of the first match is returned. -/
def findOptionLen (line : List Char) : Option Nat :=
  match oPat1At line with
  | some n => some n
  | none =>
    match oPat2At line with
    | some n => some n
    | none =>
      match oPat3At line with
      | some n => some n
      | none => oPat4At line

/-- `re.sub(r'^.*?(?=[^\d\W])', '', line)`: remove the (shortest) prefix up
to the first word character that is not a digit; if the line has no such
character the lookahead never holds and the line is unchanged. -/
def subLeadingJunk (line : List Char) : List Char :=
  if line.any (fun c => pyIsWord c && !pyIsDigit c) then
    line.dropWhile (fun c => !(pyIsWord c && !pyIsDigit c))
  else line

/-- The mutable loop state of `extract_questions`: `current_question` (its
`number` and `text` fields) and `current_options`, together with the output
list accumulated so far. -/
structure ParseState where
  current : Option (List Char × List Char)
  opts : List (List Char)
  out : List Question
deriving DecidableEq, Repr

/-- The record appended by the two flush sites of `extract_questions`. -/
def emitQuestion (cq : List Char × List Char) (opts : List (List Char)) : Question :=
  { question_number := cq.1
    question_text := pyStrip cq.2
    options := opts.map pyStrip
    correct_answer := none }

/-- The flush guard `if current_question and current_options:` shared by the
question-boundary site and the end-of-input site of `extract_questions`. -/
def flushOut (st : ParseState) : List Question :=
  match st.current with
  | some cq => if st.opts = [] then st.out else st.out ++ [emitQuestion cq st.opts]
  | none => st.out

/-- One iteration of the `for line in lines:` loop of `extract_questions`. -/
def stepLine (st : ParseState) (rawLine : List Char) : ParseState :=
  let line := pyStrip rawLine
  if line = [] then st
  else
    match findQuestionNum line with
    | some num =>
      { current := some (num, subLeadingJunk line), opts := [], out := flushOut st }
    | none =>
      match findOptionLen line with
      | some len =>
        match st.current with
        | some _ => { st with opts := st.opts ++ [pyStrip (line.drop len)] }
        | none => st
      | none =>
        match st.current with
        | some cq => { st with current := some (cq.1, cq.2 ++ ' ' :: line) }
        | none => st

/-- `MCQDetector.extract_questions`: split the text into lines, run the line
loop, and flush the last question under the same completeness guard. -/
def extract_questions (text : List Char) : List Question :=
  flushOut ((text.splitOn '\n').foldl stepLine ⟨none, [], []⟩)

/-! ## `MCQDetector.detect_correct_answer` / `normalize_answer` -/

/-- Python `str.strip('()')`: drop `(` and `)` from both ends. -/
def stripParens (l : List Char) : List Char :=
  let p : Char → Bool := fun c => c = '(' || c = ')'
  ((l.dropWhile p).reverse.dropWhile p).reverse

/-- Python `str.upper()` on the characters this program sees: ASCII letters
are upcased, Devanagari (and the other involved characters) are unchanged. -/
def upperChars (l : List Char) : List Char := l.map Char.toUpper

/-- The `answer_map` dict of `MCQDetector.normalize_answer`. -/
def answer_map : List (List Char × List Char) :=
  [(['A'], ['A']), (['B'], ['B']), (['C'], ['C']), (['D'], ['D']),
   (['क'], ['A']), (['ख'], ['B']), (['ग'], ['C']), (['घ'], ['D']),
   (['च'], ['E']), (['छ'], ['F']), (['ज'], ['G']), (['झ'], ['H'])]

/-- `MCQDetector.normalize_answer`: `answer_map.get(answer.strip('()'), None)`. -/
def normalize_answer (answer : List Char) : Option (List Char) :=
  answer_map.lookup (stripParens answer)

/-- The token alternation `([A-Da-d]|\(?(क|ख|ग|घ)\)?)` of the two answer
patterns, anchored; returns the text of capture group 1.  Only क, ख, ग, घ
appear in the Devanagari alternative. -/
def ansTokenAt (l : List Char) : Option (List Char) :=
  match l with
  | [] => none
  | c :: rest =>
    if isOptLetter c then some [c]
    else if c = '(' then
      match rest with
      | k :: rest2 =>
        if k = 'क' || k = 'ख' || k = 'ग' || k = 'घ' then
          match rest2 with
          | d :: _ => if d = ')' then some ['(', k, ')'] else some ['(', k]
          | [] => some ['(', k]
        else none
      | [] => none
    else if c = 'क' || c = 'ख' || c = 'ग' || c = 'घ' then
      match rest with
      | d :: _ => if d = ')' then some [c, ')'] else some [c]
      | [] => some [c]
    else none

/-- Anchored matcher for one answer pattern
`marker + \s*[:=]\s*([A-Da-d]|\(?(क|ख|ग|घ)\)?)`; returns capture group 1. -/
def ansMarkerAt (marker : List Char) (l : List Char) : Option (List Char) :=
  match litMatch marker l with
  | none => none
  | some r =>
    match r.dropWhile pyIsSpace with
    | c :: r2 =>
      if c = ':' || c = '=' then ansTokenAt (r2.dropWhile pyIsSpace) else none
    | [] => none

/-- The literal `सही उत्तर` of the first answer pattern. -/
def sahiUttarLit : List Char := "सही उत्तर".toList

/-- The literal `Answer` of the second answer pattern. -/
def answerLit : List Char := "Answer".toList

/-- `MCQDetector.detect_correct_answer`: search the question text for each
answer pattern in order; on the first match, return
`normalize_answer(match.group(1).strip().upper())` (the loop returns
immediately, so a failed table lookup after a successful match is final). -/
def detect_correct_answer (question_text : List Char) : Option (List Char) :=
  match reSearch (ansMarkerAt sahiUttarLit) question_text with
  | some g => normalize_answer (upperChars (pyStrip g))
  | none =>
    match reSearch (ansMarkerAt answerLit) question_text with
    | some g => normalize_answer (upperChars (pyStrip g))
    | none => none

/-! ## `HindiOCREngine.preprocess_image` -/

/-- Shape-level model of an OpenCV image: its dimensions and channel count.
The pixel contents are irrelevant to the claims about `preprocess_image`
(single-channel output, control flow of the contour crop), so the library
primitives are kept as explicit function parameters constrained only by
their documented channel signatures. -/
structure Img where
  height : Nat
  width : Nat
  channels : Nat
deriving DecidableEq, Repr

/-- The OpenCV primitives `preprocess_image` calls, as abstract operations
on shape-level images.  `Contour`s are abstract identifiers. -/
structure CVOps where
  cvtColorGray : Img → Img
  medianBlur : Img → Img
  gaussianBlur : Img → Img
  adaptiveThreshold : Img → Img
  minAreaRectAngle : Img → ℚ
  warpAffine : Img → ℚ → Nat × Nat → Img
  clahe : Img → Img
  copyMakeBorder : Img → Img
  findContours : Img → List Nat
  contourArea : Nat → ℚ
  boundingRect : Nat → Nat × Nat × Nat × Nat
  crop : Img → Nat × Nat × Nat × Nat → Img
  resize : Img → Img

/-- Python `max(contours, key=cv2.contourArea)`: the first element of
maximal area. -/
def pyMaxBy (f : Nat → ℚ) (x : Nat) (xs : List Nat) : Nat :=
  xs.foldl (fun b c => if f c > f b then c else b) x

/-- The deskew-angle correction of `preprocess_image`:
`if angle < -45: angle = -(90 + angle) else: angle = -angle`. -/
def deskewAngle (ops : CVOps) (thresh : Img) : ℚ :=
  let angle := ops.minAreaRectAngle thresh
  if angle < -45 then -(90 + angle) else -angle

/-- The pipeline of `preprocess_image` up to and including the optional CLAHE
step: the value of the variable `rotated` just before the border/contour
block. -/
def preprocessRotated (ops : CVOps) (img : Img) (enhance : Bool) : Img :=
  let gray := ops.cvtColorGray img
  let gray := if enhance then ops.gaussianBlur (ops.medianBlur gray) else gray
  let thresh := ops.adaptiveThreshold gray
  let rotated := ops.warpAffine thresh (deskewAngle ops thresh) (img.width, img.height)
  if enhance then ops.clahe rotated else rotated

/-- `HindiOCREngine.preprocess_image`: pad with a 5px border, find contours,
and — only when the contour list is nonempty — replace `rotated` by the crop
of the padded image to the bounding box of the largest contour; finally
upscale by 2.0.  When no contours are found, the un-padded `rotated` is what
gets resized. -/
def preprocess_image (ops : CVOps) (img : Img) (enhance : Bool) : Img :=
  let rotated := preprocessRotated ops img enhance
  let contour_img := ops.copyMakeBorder rotated
  let rotated2 :=
    match ops.findContours contour_img with
    | [] => rotated
    | c :: cs => ops.crop contour_img (ops.boundingRect (pyMaxBy ops.contourArea c cs))
  ops.resize rotated2

/-- Concrete instantiation of the OpenCV primitives used by the witness and
counterexample for claim C8: each operation acts on the shape fields the way
the real primitive does (grayscale makes one channel, the 5px border grows
each dimension by 10, resizing by 2.0 doubles them), and `findContours`
returns no contours, as on an all-background page. -/
def toyOps : CVOps where
  cvtColorGray i := { i with channels := 1 }
  medianBlur i := i
  gaussianBlur i := i
  adaptiveThreshold i := i
  minAreaRectAngle _ := 0
  warpAffine i _ _ := i
  clahe i := i
  copyMakeBorder i := { i with height := i.height + 10, width := i.width + 10 }
  findContours _ := []
  contourArea _ := 0
  boundingRect _ := (0, 0, 0, 0)
  crop i _ := i
  resize i := { i with height := 2 * i.height, width := 2 * i.width }

/-! ## Concrete inputs named by the claims -/

/-- The end-to-end parse scenario of claim C3 (spec section 8). -/
def c3Text : List Char :=
  ("प्रश्न 1. एक संख्या का 20% 25 है तो वह संख्या क्या है?\n" ++
   "A) 100\nB) 125\nC) 150\nD) 175\n\n" ++
   "Q.2. Which of these is the largest planet?\nA) Earth\nB) Jupiter").toList

/-- Claim C4's completeness scenario: a question header with zero option
lines before the next header, whose question carries one option. -/
def c4Scene : List Char := "1. first q\n2. second q\na) opt".toList

/-- Claim C5's token-confidence sequence `[80, -1, 60, "", 90]`: the fourth
token has an empty text (its reported confidence, 70, must be excluded
because of the empty text, not because of the sentinel). -/
def c5Tokens : List OcrToken :=
  [⟨80, "ab".toList⟩, ⟨-1, "cd".toList⟩, ⟨60, "ef".toList⟩, ⟨70, []⟩, ⟨90, "gh".toList⟩]

/-- Claim C5's all-excluded sequence: a sentinel token and a
whitespace-only token. -/
def c5Excluded : List OcrToken := [⟨-1, "ab".toList⟩, ⟨50, [' ']⟩]

/-- Claim C6's counterexample document text: 51 letters separated by 50
internal spaces — 101 characters, none of them leading or trailing
whitespace, but only 51 non-whitespace characters. -/
def c6Bad : List Char := List.flatten (List.replicate 50 ['a', ' ']) ++ ['a']

/-- Claim C7's counterexample text: an answer marker whose letter is च,
which none of the two answer patterns can capture. -/
def c7Text : List Char := "सही उत्तर: च".toList

/-- The typographic characters the `replacements` dict of `normalize_text`
can introduce (em dash U+2014, left/right single quote U+2018/U+2019, right
double quote U+201D); all lie outside the ASCII/Devanagari/whitespace class
the same function preserves. -/
def typoChars : List Char :=
  [Char.ofNat 0x2014, Char.ofNat 0x2018, Char.ofNat 0x2019, Char.ofNat 0x201d]

/-- The keys of the `replacements` dict, in insertion order. -/
def replKeys : List Char :=
  ['0', '1', '2', '3', '4', '5', '6', '7', '8', '9', '|', '-',
   Char.ofNat 0x60, Char.ofNat 0x27, Char.ofNat 0x22]

/-- The values of the `replacements` dict. -/
def replValues : List Char :=
  ['०', '१', '२', '३', '४', '५', '६', '७', '८', '९', '।', '—',
   Char.ofNat 0x2018, Char.ofNat 0x2019, Char.ofNat 0x201d]

/-- The shape shared by every record the two flush sites of
`extract_questions` can append: a nonempty option list and an unset
correct answer. -/
def EmittedShape (q : Question) : Prop :=
  q.options ≠ [] ∧ q.correct_answer = none

/-- Head-of-list test: the list starts with the character `x`. -/
def headIs (x : Char) (l : List Char) : Bool :=
  match l with
  | [] => false
  | c :: _ => c = x

/-- Head-of-list test: the list starts with a whitespace character. -/
def headIsSpace (l : List Char) : Bool :=
  match l with
  | [] => false
  | c :: _ => pyIsSpace c

/-- No two adjacent whitespace characters anywhere in the list. -/
def noTwoSpaces : List Char → Bool
  | c :: d :: rest => (!(pyIsSpace c && pyIsSpace d)) && noTwoSpaces (d :: rest)
  | _ => true

/-- No occurrence of the two-character pattern `m` followed by a space
(the pattern `fixMatraOne m` rewrites). -/
def noMatraSpace (m : Char) : List Char → Bool
  | c :: d :: rest => (!(c = m && d = ' ')) && noMatraSpace m (d :: rest)
  | _ => true


/-! ## Parser invariants (claims C4, C9) -/

lemma mem_flushOut (st : ParseState) (q : Question) (h : q ∈ flushOut st) :
    q ∈ st.out ∨ EmittedShape q := by
  simp only [flushOut] at h
  split at h
  · rename_i cq heq
    split at h
    · exact Or.inl h
    · rename_i ho
      rcases List.mem_append.mp h with h1 | h1
      · exact Or.inl h1
      · have hq : q = emitQuestion cq st.opts := by simpa using h1
        subst hq
        refine Or.inr ⟨?_, rfl⟩
        simpa [emitQuestion] using ho
  · exact Or.inl h

lemma mem_stepLine_out (st : ParseState) (line : List Char) (q : Question)
    (h : q ∈ (stepLine st line).out) : q ∈ st.out ∨ EmittedShape q := by
  simp only [stepLine] at h
  split at h
  · exact Or.inl h
  · split at h
    · exact mem_flushOut st q h
    · split at h
      · split at h
        · exact Or.inl h
        · exact Or.inl h
      · split at h
        · exact Or.inl h
        · exact Or.inl h

lemma mem_foldl_out (lines : List (List Char)) (st : ParseState) (q : Question)
    (h : q ∈ (lines.foldl stepLine st).out) : q ∈ st.out ∨ EmittedShape q := by
  induction lines generalizing st with
  | nil => exact Or.inl h
  | cons l ls ih =>
    rcases ih (stepLine st l) h with h1 | h1
    · exact mem_stepLine_out st l q h1
    · exact Or.inr h1

lemma emittedShape_of_mem (text : List Char) (q : Question)
    (h : q ∈ extract_questions text) : EmittedShape q := by
  rw [extract_questions] at h
  rcases mem_flushOut _ q h with h1 | h1
  · rcases mem_foldl_out _ _ q h1 with h2 | h2
    · simp at h2
    · exact h2
  · exact h1

/-- Claim C3: on the five-line Hindi/English MCQ text (followed by a blank
line and a second, two-option question), `MCQDetector.extract_questions`
returns exactly 2 question records: the first with 4 options and question
number "1", the second with 2 options and question number "2". -/
theorem c3_end_to_end_parse :
    (extract_questions c3Text).length = 2 ∧
    (extract_questions c3Text).map Question.question_number = [['1'], ['2']] ∧
    (extract_questions c3Text).map (fun q => q.options.length) = [4, 2] := by
  decide

/-- Claim C4: every question record `extract_questions` emits has at least
one option — an in-progress question with zero accumulated options is
discarded both at a question-start boundary and at end of input; and in the
concrete header/header/option scenario the option-less first question is
absent while the option-bearing second question is present. -/
theorem c4_question_needs_option :
    (∀ text q, q ∈ extract_questions text → q.options ≠ []) ∧
    extract_questions c4Scene =
      [{ question_number := ['2'], question_text := "second q".toList,
         options := ["opt".toList], correct_answer := none }] := by
  constructor
  · intro text q h
    exact (emittedShape_of_mem text q h).1
  · decide

/-- Witness for claim C4's universally quantified part, instantiated on the
concrete scenario input. -/
theorem c4_question_needs_option_witness :
    ({ question_number := ['2'], question_text := "second q".toList,
       options := ["opt".toList], correct_answer := none } : Question).options ≠ [] :=
  c4_question_needs_option.1 c4Scene _ (by decide)

/-- Claim C9 (implicit): every question record `extract_questions` returns
has `correct_answer = none`; the parser itself never resolves answers. -/
theorem c9_parser_never_resolves_answers :
    ∀ text q, q ∈ extract_questions text → q.correct_answer = none := by
  intro text q h
  exact (emittedShape_of_mem text q h).2

/-- Witness for claim C9, instantiated on the C4 scenario text and the
record it emits. -/
theorem c9_parser_never_resolves_answers_witness :
    ({ question_number := ['2'], question_text := "second q".toList,
       options := ["opt".toList], correct_answer := none } : Question).correct_answer = none :=
  c9_parser_never_resolves_answers c4Scene _ (by decide)

/-- Claim C10 (implicit): while a question is current, a stripped line led by
any of `a`, `b`, `c`, `d` — in either case — followed by `)` or `.` and not
matching a question-start pattern is appended to the option list with the
two-character lead stripped. -/
theorem c10_lowercase_option_leads :
    ∀ (cq : List Char × List Char) (opts : List (List Char)) (out : List Question)
      (c delim : Char) (rest : List Char),
      c ∈ ['a', 'b', 'c', 'd', 'A', 'B', 'C', 'D'] →
      delim ∈ [')', '.'] →
      pyStrip (c :: delim :: rest) = c :: delim :: rest →
      findQuestionNum (c :: delim :: rest) = none →
      stepLine ⟨some cq, opts, out⟩ (c :: delim :: rest) =
        ⟨some cq, opts ++ [pyStrip rest], out⟩ := by
  intro cq opts out c delim rest hc hd hstrip hq
  simp only [List.mem_cons, List.not_mem_nil, or_false] at hc hd
  have hopt : findOptionLen (c :: delim :: rest) = some 2 := by
    rcases hc with rfl | rfl | rfl | rfl | rfl | rfl | rfl | rfl <;>
      rcases hd with rfl | rfl <;>
        simp [findOptionLen, oPat1At, oPat2At, isOptLetter]
  simp only [stepLine, hstrip, hq, hopt]
  have hne : (c :: delim :: rest) = ([] : List Char) ↔ False := by simp
  simp [hne, List.drop]

/-- Witness for claim C10: the lowercase-led line `a) 100` is appended as the
option `100` to a current question. -/
theorem c10_lowercase_option_leads_witness :
    stepLine ⟨some (['1'], "q".toList), [], []⟩ ('a' :: ')' :: " 100".toList) =
      ⟨some (['1'], "q".toList), ["100".toList], []⟩ := by
  have h := c10_lowercase_option_leads (['1'], "q".toList) [] [] 'a' ')' (" 100".toList)
    (by decide) (by decide) (by decide) (by decide)
  simpa using h

/-! ## Confidence, classifier, answer resolution, preprocessing -/

lemma collectConfidences_eq (data : List OcrToken) :
    collectConfidences data =
      (data.filter fun t => decide (t.conf ≠ -1 ∧ pyStrip t.text ≠ [])).map OcrToken.conf := by
  suffices h : ∀ acc : List Int,
      data.foldl (fun acc t => if t.conf ≠ -1 ∧ pyStrip t.text ≠ [] then acc ++ [t.conf] else acc) acc =
        acc ++ (data.filter fun t => decide (t.conf ≠ -1 ∧ pyStrip t.text ≠ [])).map OcrToken.conf by
    simpa [collectConfidences] using h []
  induction data with
  | nil => intro acc; simp
  | cons t ts ih =>
    intro acc
    by_cases hc : t.conf ≠ -1 ∧ pyStrip t.text ≠ []
    · simp [hc, ih, List.filter_cons]
    · simp [hc, ih, List.filter_cons]

/-- Claim C5: `get_ocr_confidence` is the arithmetic mean of the token
confidences that survive the exclusions (sentinel `-1`, empty or
whitespace-only text); on the sequence `[80, -1, 60, "", 90]` it equals
`(80+60+90)/3`, and when every token is excluded it equals `0`. -/
theorem c5_confidence_mean :
    (∀ data : List OcrToken,
        get_ocr_confidence data =
          if (data.filter fun t => decide (t.conf ≠ -1 ∧ pyStrip t.text ≠ [])) = [] then 0
          else
            (((data.filter fun t => decide (t.conf ≠ -1 ∧ pyStrip t.text ≠ [])).map
                OcrToken.conf).sum : ℚ) /
              ((data.filter fun t => decide (t.conf ≠ -1 ∧ pyStrip t.text ≠ [])).length : ℚ)) ∧
    get_ocr_confidence c5Tokens = 230 / 3 ∧
    get_ocr_confidence c5Excluded = 0 := by
  refine ⟨?_, ?_, ?_⟩
  · intro data
    rw [get_ocr_confidence, collectConfidences_eq]
    by_cases h : (data.filter fun t => decide (t.conf ≠ -1 ∧ pyStrip t.text ≠ [])) = []
    · rw [if_pos h, h]
      simp
    · rw [if_neg h]
      have hm : (data.filter fun t => decide (t.conf ≠ -1 ∧ pyStrip t.text ≠ [])).map
          OcrToken.conf ≠ [] := by
        simpa using h
      rw [if_pos hm, List.length_map]
  · have h : collectConfidences c5Tokens = [80, 60, 90] := by decide
    rw [get_ocr_confidence, h]
    norm_num
    decide
  · have h : collectConfidences c5Excluded = [] := by decide
    rw [get_ocr_confidence, h]
    norm_num

lemma extractedPasses_some (t : List Char) :
    extractedPasses (some t) = true ↔ 100 < (pyStrip t).length := by
  constructor
  · intro h
    simpa [extractedPasses] using (by simpa [extractedPasses] using h : _ ∧ 100 < (pyStrip t).length).2
  · intro h
    have hne : (pyStrip t).isEmpty = false := by
      rcases he : pyStrip t with _ | ⟨x, xs⟩
      · rw [he] at h; simp at h
      · simp
    simp [extractedPasses, hne, h]

/-- Counterexample for claim C6: a document text of 101 characters with only
51 non-whitespace characters is classified text-based by `is_text_based`
(its stripped length, internal spaces included, exceeds 100), while the
spec's non-whitespace-count rule classifies it scanned. -/
theorem c6_counterexample :
    is_text_based (some c6Bad) none = true ∧
    specNonWsCount c6Bad = 51 ∧
    specTextNative (some c6Bad) none = false := by decide

/-- Claim C6 as amended: `is_text_based` classifies text-based exactly when
one of the two extraction methods yields text whose length after trimming
leading/trailing whitespace (internal whitespace still counted) exceeds 100;
in particular a text of trimmed length exactly 100 is classified scanned. -/
theorem c6_amended_threshold :
    (∀ t1 t2 : Option (List Char),
        is_text_based t1 t2 = true ↔
          ∃ t, (t1 = some t ∨ t2 = some t) ∧ 100 < (pyStrip t).length) ∧
    (∀ t : List Char, (pyStrip t).length = 100 → is_text_based (some t) (some t) = false) := by
  constructor
  · intro t1 t2
    rw [is_text_based, Bool.or_eq_true]
    constructor
    · rintro (h | h)
      · rcases t1 with _ | a
        · simp [extractedPasses] at h
        · exact ⟨a, Or.inl rfl, (extractedPasses_some a).mp h⟩
      · rcases t2 with _ | b
        · simp [extractedPasses] at h
        · exact ⟨b, Or.inr rfl, (extractedPasses_some b).mp h⟩
    · rintro ⟨t, hor | hor, hlen⟩
      · subst hor
        exact Or.inl ((extractedPasses_some t).mpr hlen)
      · subst hor
        exact Or.inr ((extractedPasses_some t).mpr hlen)
  · intro t hlen
    rw [is_text_based, Bool.or_eq_false_iff]
    constructor <;>
      · rw [Bool.eq_false_iff]
        intro h
        have := (extractedPasses_some t).mp h
        omega

/-- Witness for claim C6's amended boundary statement: a 100-character
stripped text is classified scanned. -/
theorem c6_amended_threshold_witness :
    (pyStrip (List.replicate 100 'a')).length = 100 ∧
    is_text_based (some (List.replicate 100 'a')) (some (List.replicate 100 'a')) = false :=
  ⟨by decide, c6_amended_threshold.2 (List.replicate 100 'a') (by decide)⟩

/-- Counterexample for claim C7: the answer patterns of
`detect_correct_answer` only capture क, ख, ग, घ (besides Latin A–D), so a
marker whose letter is च is not matched at all and resolves to `none`, not
to `"E"`. -/
theorem c7_counterexample :
    detect_correct_answer c7Text = none ∧ detect_correct_answer c7Text ≠ some ['E'] := by
  decide

/-- Claim C7 as amended: `detect_correct_answer` maps a captured marker
letter through the table (Latin A–D, upcased, identity; क/ख/ग/घ → A/B/C/D);
`सही उत्तर: क` resolves to `A`, a parenthesised `(ख)` to `B`, `Answer: D`
to `D`, a lowercase `c` to `C`; a marker with च (never capturable) and text
with no marker both yield `none`. -/
theorem c7_answer_resolution_amended :
    detect_correct_answer ("अतः सही उत्तर: क".toList) = some ['A'] ∧
    detect_correct_answer ("सही उत्तर = (ख)".toList) = some ['B'] ∧
    detect_correct_answer ("The Answer: D".toList) = some ['D'] ∧
    detect_correct_answer ("Answer= c".toList) = some ['C'] ∧
    detect_correct_answer ("परीक्षा में सही उत्तर: च लिखा है".toList) = none ∧
    detect_correct_answer ("यह एक प्रश्न है".toList) = none := by decide

/-- Claim C8 as amended: under the documented channel signatures of the
OpenCV primitives (grayscale conversion yields one channel, the remaining
operations preserve the channel count), `preprocess_image` always returns a
single-channel image; and when `findContours` finds no contours the crop is
skipped and the un-padded rotated image is what gets upscaled and
returned. -/
theorem c8_single_channel_and_crop_skip :
    ∀ (ops : CVOps) (img : Img) (enhance : Bool),
      (∀ i, (ops.cvtColorGray i).channels = 1) →
      (∀ i, (ops.medianBlur i).channels = i.channels) →
      (∀ i, (ops.gaussianBlur i).channels = i.channels) →
      (∀ i, (ops.adaptiveThreshold i).channels = i.channels) →
      (∀ i a d, (ops.warpAffine i a d).channels = i.channels) →
      (∀ i, (ops.clahe i).channels = i.channels) →
      (∀ i, (ops.copyMakeBorder i).channels = i.channels) →
      (∀ i r, (ops.crop i r).channels = i.channels) →
      (∀ i, (ops.resize i).channels = i.channels) →
      (preprocess_image ops img enhance).channels = 1 ∧
      (ops.findContours (ops.copyMakeBorder (preprocessRotated ops img enhance)) = [] →
        preprocess_image ops img enhance = ops.resize (preprocessRotated ops img enhance)) := by
  intro ops img enhance h1 h2 h3 h4 h5 h6 h7 h8 h9
  have hrot : (preprocessRotated ops img enhance).channels = 1 := by
    rw [preprocessRotated]
    cases enhance <;> simp [h1, h2, h3, h4, h5, h6]
  constructor
  · rw [preprocess_image]
    rcases hfc : ops.findContours (ops.copyMakeBorder (preprocessRotated ops img enhance))
        with _ | ⟨c, cs⟩ <;> simp [hfc, h7, h8, h9, hrot]
  · intro hfc
    rw [preprocess_image]
    simp [hfc]

/-- Witness for claim C8's amended statement, at the concrete shape-level
OpenCV instantiation `toyOps` and a 3-channel 100×50 page image. -/
theorem c8_single_channel_and_crop_skip_witness :
    (preprocess_image toyOps ⟨100, 50, 3⟩ false).channels = 1 ∧
    preprocess_image toyOps ⟨100, 50, 3⟩ false =
      toyOps.resize (preprocessRotated toyOps ⟨100, 50, 3⟩ false) := by
  have h := c8_single_channel_and_crop_skip toyOps ⟨100, 50, 3⟩ false
    (fun i => rfl) (fun i => rfl) (fun i => rfl) (fun i => rfl) (fun i a d => rfl)
    (fun i => rfl) (fun i => rfl) (fun i r => rfl) (fun i => rfl)
  exact ⟨h.1, h.2 (by decide)⟩

/-- Counterexample for claim C8 as stated: at `toyOps` (no contours found on
an all-background page), the image that gets upscaled is the un-padded
rotated image, not the border-padded one the claim describes — the two
results differ. -/
theorem c8_counterexample :
    toyOps.findContours (toyOps.copyMakeBorder (preprocessRotated toyOps ⟨100, 50, 3⟩ false)) = [] ∧
    preprocess_image toyOps ⟨100, 50, 3⟩ false ≠
      toyOps.resize (toyOps.copyMakeBorder (preprocessRotated toyOps ⟨100, 50, 3⟩ false)) := by
  decide

/-! ## Whitespace-run lemmas for the normalization pipeline (claim C1) -/

lemma noTwoSpaces_cons (c : Char) (l : List Char) :
    noTwoSpaces (c :: l) = ((!(pyIsSpace c && headIsSpace l)) && noTwoSpaces l) := by
  cases l <;> simp [noTwoSpaces, headIsSpace]

lemma noMatraSpace_cons (m c : Char) (l : List Char) :
    noMatraSpace m (c :: l) = ((!(decide (c = m) && headIs ' ' l)) && noMatraSpace m l) := by
  cases l <;> simp [noMatraSpace, headIs]

lemma mem_collapseAux (b : Bool) (l : List Char) (c : Char) (h : c ∈ collapseAux b l) :
    c ∈ l ∨ c = ' ' := by
  induction l generalizing b with
  | nil => simp [collapseAux] at h
  | cons x rest ih =>
    simp only [collapseAux] at h
    by_cases hx : pyIsSpace x
    · rw [if_pos hx] at h
      cases b with
      | true =>
        simp only [if_true] at h
        rcases ih true h with h1 | h1
        · exact Or.inl (List.mem_cons_of_mem x h1)
        · exact Or.inr h1
      | false =>
        simp only [Bool.false_eq_true, if_false] at h
        rcases List.mem_cons.mp h with rfl | hmem
        · exact Or.inr rfl
        · rcases ih true hmem with h1 | h1
          · exact Or.inl (List.mem_cons_of_mem x h1)
          · exact Or.inr h1
    · rw [if_neg hx] at h
      rcases List.mem_cons.mp h with rfl | hmem
      · exact Or.inl (List.mem_cons_self c rest)
      · rcases ih false hmem with h1 | h1
        · exact Or.inl (List.mem_cons_of_mem x h1)
        · exact Or.inr h1

lemma collapseAux_plain (b : Bool) (l : List Char) (c : Char)
    (hc : c ∈ collapseAux b l) (hs : pyIsSpace c = true) : c = ' ' := by
  induction l generalizing b with
  | nil => simp [collapseAux] at hc
  | cons x rest ih =>
    simp only [collapseAux] at hc
    by_cases hx : pyIsSpace x
    · rw [if_pos hx] at hc
      cases b with
      | true =>
        simp only [if_true] at hc
        exact ih true hc
      | false =>
        simp only [Bool.false_eq_true, if_false] at hc
        rcases List.mem_cons.mp hc with rfl | hmem
        · rfl
        · exact ih true hmem
    · rw [if_neg hx] at hc
      rcases List.mem_cons.mp hc with rfl | hmem
      · exact absurd hs (by simp [hx])
      · exact ih false hmem

lemma collapseAux_true_head (l : List Char) : headIsSpace (collapseAux true l) = false := by
  induction l with
  | nil => rfl
  | cons x rest ih =>
    simp only [collapseAux]
    by_cases hx : pyIsSpace x
    · rw [if_pos hx]
      simpa using ih
    · rw [if_neg hx]
      simpa [headIsSpace] using hx

lemma collapseAux_noTwoSpaces (b : Bool) (l : List Char) :
    noTwoSpaces (collapseAux b l) = true := by
  induction l generalizing b with
  | nil => cases b <;> rfl
  | cons x rest ih =>
    simp only [collapseAux]
    by_cases hx : pyIsSpace x
    · rw [if_pos hx]
      cases b with
      | true => simpa using ih true
      | false =>
        simp only [Bool.false_eq_true, if_false]
        rw [noTwoSpaces_cons, collapseAux_true_head]
        simpa using ih true
    · rw [if_neg hx]
      rw [noTwoSpaces_cons]
      simp only [Bool.not_eq_true] at hx
      rw [hx]
      simpa using ih false

lemma collapseAux_true_of_head (l : List Char) (h : headIsSpace l = false) :
    collapseAux true l = collapseAux false l := by
  cases l with
  | nil => rfl
  | cons x rest =>
    simp only [headIsSpace] at h
    simp [collapseAux, h]

lemma collapseAux_noop (l : List Char)
    (hplain : ∀ c ∈ l, pyIsSpace c = true → c = ' ')
    (h2 : noTwoSpaces l = true) : collapseAux false l = l := by
  induction l with
  | nil => rfl
  | cons x rest ih =>
    rw [noTwoSpaces_cons] at h2
    simp only [Bool.and_eq_true, Bool.not_eq_true', Bool.and_eq_false_iff] at h2
    simp only [collapseAux]
    by_cases hx : pyIsSpace x
    · rw [if_pos hx]
      simp only [Bool.false_eq_true, if_false]
      have hx' : x = ' ' := hplain x (List.mem_cons_self x rest) hx
      have hh : headIsSpace rest = false := by
        rcases h2.1 with h | h
        · rw [hx] at h; simp at h
        · exact h
      rw [collapseAux_true_of_head rest hh,
        ih (fun c hc hs => hplain c (List.mem_cons_of_mem x hc) hs) h2.2, hx']
    · rw [if_neg hx,
        ih (fun c hc hs => hplain c (List.mem_cons_of_mem x hc) hs) h2.2]

lemma normNlAux_noop (l : List Char) (h : '\n' ∉ l) : normNlAux false l = l := by
  induction l with
  | nil => rfl
  | cons x rest ih =>
    have hx : ¬x = '\n' := fun hh => h (hh ▸ List.mem_cons_self x rest)
    simp only [normNlAux, Bool.false_and, Bool.false_eq_true, if_false]
    rw [if_neg hx, ih (fun hm => h (List.mem_cons_of_mem x hm))]

lemma mem_normNlAux (b : Bool) (l : List Char) (c : Char) (h : c ∈ normNlAux b l) : c ∈ l := by
  induction l generalizing b with
  | nil => simpa [normNlAux] using h
  | cons x rest ih =>
    simp only [normNlAux] at h
    by_cases habs : (b && pyIsSpace x) = true
    · rw [if_pos habs] at h
      exact List.mem_cons_of_mem x (ih true h)
    · rw [if_neg habs] at h
      by_cases hx : x = '\n'
      · rw [if_pos hx] at h
        rcases List.mem_cons.mp h with rfl | hmem
        · exact hx ▸ List.mem_cons_self x rest
        · exact List.mem_cons_of_mem x (ih true hmem)
      · rw [if_neg hx] at h
        rcases List.mem_cons.mp h with rfl | hmem
        · exact List.mem_cons_self c rest
        · exact List.mem_cons_of_mem x (ih false hmem)

/-! ## Matra-fix lemmas (claim C1) -/

lemma fixMatraOne_head (m : Char) (l : List Char) :
    (fixMatraOne m l).head? = l.head? := by
  induction l using fixMatraOne.induct m with
  | case1 => rfl
  | case2 c => rfl
  | case3 c d rest hcd ih => rw [fixMatraOne, if_pos hcd]; rfl
  | case4 c d rest hcd ih => rw [fixMatraOne, if_neg hcd]; rfl

lemma fixMatraOne_headIs (x m : Char) (l : List Char) :
    headIs x (fixMatraOne m l) = headIs x l := by
  have h := fixMatraOne_head m l
  cases hl : l with
  | nil => rw [hl] at h; cases hf : fixMatraOne m [] <;> simp_all [headIs]
  | cons c rest =>
    rw [hl] at h
    cases hf : fixMatraOne m (c :: rest) with
    | nil => rw [hf] at h; simp at h
    | cons c2 rest2 =>
      rw [hf] at h
      simp only [List.head?_cons, Option.some.injEq] at h
      simp [headIs, h]

lemma fixMatraOne_headIsSpace (m : Char) (l : List Char) :
    headIsSpace (fixMatraOne m l) = headIsSpace l := by
  have h := fixMatraOne_head m l
  cases hl : l with
  | nil => rw [hl] at h; cases hf : fixMatraOne m [] <;> simp_all [headIsSpace]
  | cons c rest =>
    rw [hl] at h
    cases hf : fixMatraOne m (c :: rest) with
    | nil => rw [hf] at h; simp at h
    | cons c2 rest2 =>
      rw [hf] at h
      simp only [List.head?_cons, Option.some.injEq] at h
      simp [headIsSpace, h]

lemma mem_fixMatraOne (m : Char) (l : List Char) (c : Char) (h : c ∈ fixMatraOne m l) :
    c ∈ l := by
  induction l using fixMatraOne.induct m with
  | case1 => simpa [fixMatraOne] using h
  | case2 x => simpa [fixMatraOne] using h
  | case3 x d rest hcd ih =>
    rw [fixMatraOne, if_pos hcd] at h
    rcases List.mem_cons.mp h with rfl | hmem
    · exact List.mem_cons_self c _
    · exact List.mem_cons_of_mem x (List.mem_cons_of_mem d (ih hmem))
  | case4 x d rest hcd ih =>
    rw [fixMatraOne, if_neg hcd] at h
    rcases List.mem_cons.mp h with rfl | hmem
    · exact List.mem_cons_self c _
    · exact List.mem_cons_of_mem x (ih hmem)

lemma fixMatraOne_noop (m : Char) (l : List Char) (h : noMatraSpace m l = true) :
    fixMatraOne m l = l := by
  induction l using fixMatraOne.induct m with
  | case1 => rfl
  | case2 c => rfl
  | case3 c d rest hcd ih =>
    rw [noMatraSpace] at h
    rw [hcd] at h
    simp at h
  | case4 c d rest hcd ih =>
    rw [noMatraSpace] at h
    simp only [Bool.and_eq_true] at h
    rw [fixMatraOne, if_neg hcd, ih h.2]

lemma fixMatraOne_self (m : Char) (l : List Char)
    (h2 : noTwoSpaces l = true) (hm : pyIsSpace m = false) :
    noMatraSpace m (fixMatraOne m l) = true := by
  induction l using fixMatraOne.induct m with
  | case1 => rfl
  | case2 c => rfl
  | case3 c d rest hcd ih =>
    rw [fixMatraOne, if_pos hcd]
    simp only [Bool.and_eq_true, decide_eq_true_eq] at hcd
    obtain ⟨rfl, rfl⟩ := hcd
    rw [noTwoSpaces_cons, noTwoSpaces_cons] at h2
    simp only [Bool.and_eq_true, Bool.not_eq_true', Bool.and_eq_false_iff] at h2
    have hrest : headIsSpace rest = false := by
      rcases h2.2.1 with h | h
      · simp [pyIsSpace] at h
      · exact h
    rw [noMatraSpace_cons, fixMatraOne_headIs]
    have hnot : headIs ' ' rest = false := by
      cases rest with
      | nil => rfl
      | cons y ys =>
        simp only [headIsSpace] at hrest
        simp only [headIs, decide_eq_false_iff_not]
        intro hy
        rw [hy] at hrest
        simp [pyIsSpace] at hrest
    rw [hnot]
    simpa using ih h2.2.2
  | case4 c d rest hcd ih =>
    rw [fixMatraOne, if_neg hcd]
    rw [noTwoSpaces_cons] at h2
    simp only [Bool.and_eq_true] at h2
    rw [noMatraSpace_cons, fixMatraOne_headIs]
    have hpair : (!(decide (c = m) && headIs ' ' (d :: rest))) = true := by
      simp only [Bool.not_eq_true', Bool.and_eq_false_iff]
      by_cases hc : c = m
      · right
        simp only [headIs, decide_eq_false_iff_not]
        intro hd
        exact hcd (by simp [hc, hd])
      · left
        simpa using hc
    rw [hpair]
    simpa using ih h2.2

lemma fixMatraOne_cross (m m' : Char) (l : List Char) (hne : m ≠ m')
    (h : noMatraSpace m l = true) : noMatraSpace m (fixMatraOne m' l) = true := by
  induction l using fixMatraOne.induct m' with
  | case1 => rfl
  | case2 c => rfl
  | case3 c d rest hcd ih =>
    rw [fixMatraOne, if_pos hcd]
    simp only [Bool.and_eq_true, decide_eq_true_eq] at hcd
    obtain ⟨rfl, rfl⟩ := hcd
    rw [noMatraSpace_cons, noMatraSpace_cons] at h
    simp only [Bool.and_eq_true] at h
    rw [noMatraSpace_cons, fixMatraOne_headIs]
    have hpair : (!(decide (c = m) && headIs ' ' rest)) = true := by
      simp only [Bool.not_eq_true', Bool.and_eq_false_iff]
      left
      simp only [decide_eq_false_iff_not]
      exact fun hh => hne hh.symm
    rw [hpair]
    simpa using ih h.2.2
  | case4 c d rest hcd ih =>
    rw [fixMatraOne, if_neg hcd]
    rw [noMatraSpace_cons] at h
    simp only [Bool.and_eq_true] at h
    rw [noMatraSpace_cons, fixMatraOne_headIs]
    rw [show headIs ' ' (d :: rest) = decide (d = ' ') from rfl] at h ⊢
    rw [h.1]
    simpa using ih h.2

lemma fixMatraOne_noTwoSpaces (m : Char) (l : List Char) (hm : pyIsSpace m = false)
    (h : noTwoSpaces l = true) : noTwoSpaces (fixMatraOne m l) = true := by
  induction l using fixMatraOne.induct m with
  | case1 => rfl
  | case2 c => rfl
  | case3 c d rest hcd ih =>
    rw [fixMatraOne, if_pos hcd]
    simp only [Bool.and_eq_true, decide_eq_true_eq] at hcd
    obtain ⟨rfl, rfl⟩ := hcd
    rw [noTwoSpaces_cons, noTwoSpaces_cons] at h
    simp only [Bool.and_eq_true] at h
    rw [noTwoSpaces_cons, fixMatraOne_headIsSpace, hm]
    simpa using ih h.2.2
  | case4 c d rest hcd ih =>
    rw [fixMatraOne, if_neg hcd]
    rw [noTwoSpaces_cons] at h
    simp only [Bool.and_eq_true] at h
    rw [noTwoSpaces_cons, fixMatraOne_headIsSpace]
    rw [show headIsSpace (d :: rest) = pyIsSpace d from rfl] at h ⊢
    rw [h.1]
    simpa using ih h.2

lemma foldFix_mem (ms : List Char) (l : List Char) (c : Char)
    (h : c ∈ ms.foldl (fun acc m => fixMatraOne m acc) l) : c ∈ l := by
  induction ms generalizing l with
  | nil => simpa using h
  | cons m ms ih => exact mem_fixMatraOne m l c (ih (fixMatraOne m l) h)

lemma foldFix_noTwoSpaces (ms : List Char) :
    ∀ l : List Char, (∀ m ∈ ms, pyIsSpace m = false) → noTwoSpaces l = true →
      noTwoSpaces (ms.foldl (fun acc m => fixMatraOne m acc) l) = true := by
  induction ms with
  | nil => intro l _ h; simpa using h
  | cons m ms ih =>
    intro l hm h
    simp only [List.foldl_cons]
    exact ih (fixMatraOne m l)
      (fun m' hm' => hm m' (List.mem_cons_of_mem m hm'))
      (fixMatraOne_noTwoSpaces m l (hm m (List.mem_cons_self m ms)) h)

lemma foldFix_keeps (ms : List Char) (m : Char) :
    ∀ l : List Char, m ∉ ms → noMatraSpace m l = true →
      noMatraSpace m (ms.foldl (fun acc m => fixMatraOne m acc) l) = true := by
  induction ms with
  | nil => intro l _ h; simpa using h
  | cons m' ms ih =>
    intro l hnot h
    have hne : m ≠ m' := fun hh => hnot (hh ▸ List.mem_cons_self m' ms)
    simp only [List.foldl_cons]
    exact ih (fixMatraOne m' l) (fun hh => hnot (List.mem_cons_of_mem m' hh))
      (fixMatraOne_cross m m' l hne h)

lemma foldFix_all (ms : List Char) :
    ∀ l : List Char, ms.Nodup → (∀ m ∈ ms, pyIsSpace m = false) → noTwoSpaces l = true →
      ∀ m ∈ ms, noMatraSpace m (ms.foldl (fun acc m => fixMatraOne m acc) l) = true := by
  induction ms with
  | nil => intro l _ _ _ m hm; simp at hm
  | cons m0 ms ih =>
    intro l hnd hsp h2 m hm
    simp only [List.foldl_cons]
    have hnd' := List.nodup_cons.mp hnd
    rcases List.mem_cons.mp hm with rfl | hmem
    · exact foldFix_keeps ms m (fixMatraOne m l) hnd'.1
        (fixMatraOne_self m l h2 (hsp m (List.mem_cons_self m ms)))
    · exact ih (fixMatraOne m0 l) hnd'.2
        (fun m' hm' => hsp m' (List.mem_cons_of_mem m0 hm'))
        (fixMatraOne_noTwoSpaces m0 l (hsp m0 (List.mem_cons_self m0 ms)) h2) m hmem

lemma foldFix_noop (ms : List Char) :
    ∀ l : List Char, (∀ m ∈ ms, noMatraSpace m l = true) →
      ms.foldl (fun acc m => fixMatraOne m acc) l = l := by
  induction ms with
  | nil => intro l _; rfl
  | cons m0 ms ih =>
    intro l h
    simp only [List.foldl_cons]
    rw [fixMatraOne_noop m0 l (h m0 (List.mem_cons_self m0 ms))]
    exact ih l (fun m hm => h m (List.mem_cons_of_mem m0 hm))

/-! ## Append and strip lemmas (claim C1) -/

lemma headIsSpace_append (a b : List Char) (h : a ≠ []) :
    headIsSpace (a ++ b) = headIsSpace a := by
  cases a with
  | nil => simp at h
  | cons x xs => rfl

lemma headIs_append (x : Char) (a b : List Char) (h : a ≠ []) :
    headIs x (a ++ b) = headIs x a := by
  cases a with
  | nil => simp at h
  | cons c xs => rfl

lemma noTwoSpaces_append_right (a b : List Char) (h : noTwoSpaces (a ++ b) = true) :
    noTwoSpaces b = true := by
  induction a with
  | nil => simpa using h
  | cons x a ih =>
    rw [List.cons_append, noTwoSpaces_cons] at h
    simp only [Bool.and_eq_true] at h
    exact ih h.2

lemma noTwoSpaces_append_left (a b : List Char) (h : noTwoSpaces (a ++ b) = true) :
    noTwoSpaces a = true := by
  induction a with
  | nil => rfl
  | cons x a ih =>
    rw [List.cons_append, noTwoSpaces_cons] at h
    simp only [Bool.and_eq_true] at h
    rw [noTwoSpaces_cons]
    by_cases ha : a = []
    · subst ha
      simp [noTwoSpaces, headIsSpace]
    · rw [← headIsSpace_append a b ha]
      simp [h.1, ih h.2]

lemma noMatraSpace_append_right (m : Char) (a b : List Char)
    (h : noMatraSpace m (a ++ b) = true) : noMatraSpace m b = true := by
  induction a with
  | nil => simpa using h
  | cons x a ih =>
    rw [List.cons_append, noMatraSpace_cons] at h
    simp only [Bool.and_eq_true] at h
    exact ih h.2

lemma noMatraSpace_append_left (m : Char) (a b : List Char)
    (h : noMatraSpace m (a ++ b) = true) : noMatraSpace m a = true := by
  induction a with
  | nil => rfl
  | cons x a ih =>
    rw [List.cons_append, noMatraSpace_cons] at h
    simp only [Bool.and_eq_true] at h
    rw [noMatraSpace_cons]
    by_cases ha : a = []
    · subst ha
      simp [noMatraSpace, headIs]
    · rw [← headIs_append ' ' a b ha]
      simp [h.1, ih h.2]

lemma dropWhile_head_false (p : Char → Bool) (l : List Char) (c : Char)
    (h : (l.dropWhile p).head? = some c) : p c = false := by
  induction l with
  | nil => simp [List.dropWhile] at h
  | cons x xs ih =>
    rw [List.dropWhile_cons] at h
    by_cases hx : p x = true
    · rw [if_pos hx] at h
      exact ih h
    · rw [if_neg hx] at h
      simp only [List.head?_cons, Option.some.injEq] at h
      subst h
      simpa using hx

lemma stripTrailing_decomp (d : List Char) :
    d = stripTrailing d ++ (d.reverse.takeWhile pyIsSpace).reverse := by
  calc d = d.reverse.reverse := (List.reverse_reverse d).symm
    _ = (d.reverse.takeWhile pyIsSpace ++ d.reverse.dropWhile pyIsSpace).reverse := by
        rw [List.takeWhile_append_dropWhile]
    _ = (d.reverse.dropWhile pyIsSpace).reverse ++ (d.reverse.takeWhile pyIsSpace).reverse := by
        rw [List.reverse_append]
    _ = stripTrailing d ++ (d.reverse.takeWhile pyIsSpace).reverse := rfl

lemma pyStrip_decomp (l : List Char) :
    l = l.takeWhile pyIsSpace ++ pyStrip l ++
      ((l.dropWhile pyIsSpace).reverse.takeWhile pyIsSpace).reverse := by
  rw [pyStrip, List.append_assoc, ← stripTrailing_decomp (l.dropWhile pyIsSpace),
    List.takeWhile_append_dropWhile]

lemma pyStrip_head_false (l : List Char) (c : Char) (h : (pyStrip l).head? = some c) :
    pyIsSpace c = false := by
  rcases hs : pyStrip l with _ | ⟨x, xs⟩
  · rw [hs] at h
    simp at h
  · rw [hs] at h
    simp only [List.head?_cons, Option.some.injEq] at h
    have hmem : (l.dropWhile pyIsSpace).head? = some x := by
      rw [stripTrailing_decomp (l.dropWhile pyIsSpace),
        show stripTrailing (l.dropWhile pyIsSpace) = x :: xs from hs]
      simp
    rw [← h]
    exact dropWhile_head_false pyIsSpace l x hmem

lemma pyStrip_rev_head_false (l : List Char) (c : Char)
    (h : (pyStrip l).reverse.head? = some c) : pyIsSpace c = false := by
  have hrw : (pyStrip l).reverse = (l.dropWhile pyIsSpace).reverse.dropWhile pyIsSpace := by
    rw [pyStrip, stripTrailing, List.reverse_reverse]
  rw [hrw] at h
  exact dropWhile_head_false pyIsSpace _ c h

lemma pyStrip_noop (l : List Char)
    (h1 : ∀ c, l.head? = some c → pyIsSpace c = false)
    (h2 : ∀ c, l.reverse.head? = some c → pyIsSpace c = false) : pyStrip l = l := by
  have hd : l.dropWhile pyIsSpace = l := by
    cases l with
    | nil => rfl
    | cons x xs =>
      rw [List.dropWhile_cons, if_neg (by simp [h1 x rfl])]
  have hr : l.reverse.dropWhile pyIsSpace = l.reverse := by
    cases hrev : l.reverse with
    | nil => rfl
    | cons x xs =>
      rw [List.dropWhile_cons, if_neg (by simp [h2 x (by rw [hrev]; rfl)])]
  rw [pyStrip, hd, stripTrailing, hr, List.reverse_reverse]

lemma pyStrip_idem (l : List Char) : pyStrip (pyStrip l) = pyStrip l :=
  pyStrip_noop _ (pyStrip_head_false l) (pyStrip_rev_head_false l)

/-! ## Replacement-dict lemmas (claim C1) -/

lemma mem_replaceChar (k v c : Char) (l : List Char) (h : c ∈ replaceChar k v l) :
    c = v ∨ (c ∈ l ∧ c ≠ k) := by
  rw [replaceChar] at h
  obtain ⟨c0, hc0, heq⟩ := List.mem_map.mp h
  by_cases hk : c0 = k
  · rw [if_pos hk] at heq
    exact Or.inl heq.symm
  · rw [if_neg hk] at heq
    exact Or.inr ⟨heq ▸ hc0, heq ▸ hk⟩

lemma replaceChar_noop (k v : Char) :
    ∀ l : List Char, (∀ c ∈ l, c ≠ k) → replaceChar k v l = l := by
  intro l
  induction l with
  | nil => intro _; rfl
  | cons x xs ih =>
    intro h
    rw [replaceChar, List.map_cons, if_neg (h x (List.mem_cons_self x xs))]
    have hxs := ih (fun c hc => h c (List.mem_cons_of_mem x hc))
    rw [replaceChar] at hxs
    rw [hxs]

lemma repl_noop_keys (k v : Char) (l : List Char) (hk : k ∈ replKeys)
    (h : ∀ c ∈ l, c ∉ replKeys) : replaceChar k v l = l :=
  replaceChar_noop k v l (fun c hc heq => h c hc (heq ▸ hk))

lemma applyReplacements_noop (l : List Char) (h : ∀ c ∈ l, c ∉ replKeys) :
    applyReplacements l = l := by
  rw [applyReplacements]
  repeat rw [repl_noop_keys _ _ _ (by decide) h]

lemma mem_applyReplacements (c : Char) (l : List Char) (h : c ∈ applyReplacements l) :
    c ∈ replValues ∨ (c ∈ l ∧ c ∉ replKeys) := by
  rw [applyReplacements] at h
  rcases mem_replaceChar _ _ _ _ h with rfl | ⟨h, hq⟩
  · left; decide
  rcases mem_replaceChar _ _ _ _ h with rfl | ⟨h, ha⟩
  · left; decide
  rcases mem_replaceChar _ _ _ _ h with rfl | ⟨h, hb⟩
  · left; decide
  rcases mem_replaceChar _ _ _ _ h with rfl | ⟨h, hdash⟩
  · left; decide
  rcases mem_replaceChar _ _ _ _ h with rfl | ⟨h, hpipe⟩
  · left; decide
  rcases mem_replaceChar _ _ _ _ h with rfl | ⟨h, h9⟩
  · left; decide
  rcases mem_replaceChar _ _ _ _ h with rfl | ⟨h, h8⟩
  · left; decide
  rcases mem_replaceChar _ _ _ _ h with rfl | ⟨h, h7⟩
  · left; decide
  rcases mem_replaceChar _ _ _ _ h with rfl | ⟨h, h6⟩
  · left; decide
  rcases mem_replaceChar _ _ _ _ h with rfl | ⟨h, h5⟩
  · left; decide
  rcases mem_replaceChar _ _ _ _ h with rfl | ⟨h, h4⟩
  · left; decide
  rcases mem_replaceChar _ _ _ _ h with rfl | ⟨h, h3⟩
  · left; decide
  rcases mem_replaceChar _ _ _ _ h with rfl | ⟨h, h2⟩
  · left; decide
  rcases mem_replaceChar _ _ _ _ h with rfl | ⟨h, h1⟩
  · left; decide
  rcases mem_replaceChar _ _ _ _ h with rfl | ⟨h, h0⟩
  · left; decide
  right
  refine ⟨h, ?_⟩
  simp only [replKeys, List.mem_cons, List.not_mem_nil, or_false]
  push_neg
  exact ⟨h0, h1, h2, h3, h4, h5, h6, h7, h8, h9, hpipe, hdash, hb, ha, hq⟩

lemma replValues_keep : ∀ v ∈ replValues, keepChar v = true ∨ v ∈ typoChars := by decide

lemma replValues_not_keys : ∀ v ∈ replValues, v ∉ replKeys := by decide

/-! ## Claims C1 and C2 -/

/-- Counterexample for claim C1: `normalize_text` is not idempotent.  On the
input `-` the replacement dict produces the em dash `—`, which lies outside
the ASCII/Devanagari/whitespace class, so a second pass deletes it:
`normalize_text('-') = '—'` but `normalize_text('—') = ''`.  NFKC is the
identity on both strings (neither `-` U+002D nor `—` U+2014 has a
decomposition), so `nfkc := id` is exact here. -/
theorem c1_counterexample :
    normalize_text id (normalize_text id ['-']) ≠ normalize_text id ['-'] := by decide

/-- Claim C1 as amended: `normalize_text` is idempotent on every input whose
normalized form contains none of the typographic replacement characters
(`—`, `‘`, `’`, `”`) — equivalently, whose original contains no `-`, backtick
or quote — provided NFKC fixes the already-normalized output (true of real
NFKC on ASCII/Devanagari text, and modelled by the `nfkc` parameter
hypothesis). -/
theorem c1_idempotent_amended (nfkc : List Char → List Char) (x : List Char)
    (hfix : nfkc (normalize_text nfkc x) = normalize_text nfkc x)
    (htypo : ∀ c ∈ normalize_text nfkc x, c ∉ typoChars) :
    normalize_text nfkc (normalize_text nfkc x) = normalize_text nfkc x := by
  set z1 : List Char := (nfkc x).filter keepChar with hz1
  set z2 : List Char := applyReplacements z1 with hz2
  set z3 : List Char := collapseWs z2 with hz3
  set z4 : List Char := normNewlines z3 with hz4
  set z5 : List Char := fix_matras z4 with hz5
  set y : List Char := pyStrip z5 with hydef
  have hy : normalize_text nfkc x = y := rfl
  have h3plain : ∀ c ∈ z3, pyIsSpace c = true → c = ' ' :=
    fun c hc hs => collapseAux_plain false z2 c hc hs
  have h3no2 : noTwoSpaces z3 = true := collapseAux_noTwoSpaces false z2
  have h3nl : '\n' ∉ z3 := by
    intro hmem
    have := h3plain '\n' hmem (by decide)
    exact absurd this (by decide)
  have hz43 : z4 = z3 := normNlAux_noop z3 h3nl
  have h5no2 : noTwoSpaces z5 = true := by
    rw [hz5, hz43]
    exact foldFix_noTwoSpaces matraList z3 (by decide) h3no2
  have h5nms : ∀ m ∈ matraList, noMatraSpace m z5 = true := by
    rw [hz5, hz43]
    exact foldFix_all matraList z3 (by decide) (by decide) h3no2
  have hmem5 : ∀ c ∈ z5, c ∈ z3 := by
    intro c hc
    rw [hz5, hz43] at hc
    exact foldFix_mem matraList z3 c hc
  have hmemy : ∀ c ∈ y, c ∈ z5 := by
    intro c hc
    rw [pyStrip_decomp z5]
    exact List.mem_append.mpr (Or.inl (List.mem_append.mpr (Or.inr hc)))
  have hyno2 : noTwoSpaces y = true := by
    have h := h5no2
    rw [pyStrip_decomp z5] at h
    exact noTwoSpaces_append_right _ _ (noTwoSpaces_append_left _ _ h)
  have hynms : ∀ m ∈ matraList, noMatraSpace m y = true := by
    intro m hm
    have h := h5nms m hm
    rw [pyStrip_decomp z5] at h
    exact noMatraSpace_append_right m _ _ (noMatraSpace_append_left m _ _ h)
  have hyplain : ∀ c ∈ y, pyIsSpace c = true → c = ' ' :=
    fun c hc hs => h3plain c (hmem5 c (hmemy c hc)) hs
  have hynokeys : ∀ c ∈ y, c ∉ replKeys := by
    intro c hc
    rcases mem_collapseAux false z2 c (hmem5 c (hmemy c hc)) with hz2m | rfl
    · rcases mem_applyReplacements c z1 hz2m with hv | ⟨_, hnk⟩
      · exact replValues_not_keys c hv
      · exact hnk
    · decide
  have hykeep : ∀ c ∈ y, keepChar c = true := by
    intro c hc
    rcases mem_collapseAux false z2 c (hmem5 c (hmemy c hc)) with hz2m | rfl
    · rcases mem_applyReplacements c z1 hz2m with hv | ⟨hz1m, _⟩
      · rcases replValues_keep c hv with hk | ht
        · exact hk
        · exact absurd ht (htypo c (by rw [hy]; exact hc))
      · exact (List.mem_filter.mp hz1m).2
    · decide
  have hynl : '\n' ∉ y := by
    intro hmem
    have := hyplain '\n' hmem (by decide)
    exact absurd this (by decide)
  rw [hy] at hfix ⊢
  rw [normalize_text, hfix, List.filter_eq_self.mpr hykeep,
    applyReplacements_noop y hynokeys,
    show collapseWs y = y from collapseAux_noop y hyplain hyno2,
    show normNewlines y = y from normNlAux_noop y hynl,
    show fix_matras y = y from foldFix_noop matraList y hynms, hydef]
  exact pyStrip_idem z5

/-- Witness for claim C1's amended statement: on an input free of the
replaced punctuation the two hypotheses hold concretely (with `nfkc = id`)
and normalization is idempotent. -/
theorem c1_idempotent_amended_witness :
    (∀ c ∈ normalize_text id ("Hello, 123".toList), c ∉ typoChars) ∧
    normalize_text id (normalize_text id ("Hello, 123".toList)) =
      normalize_text id ("Hello, 123".toList) :=
  ⟨by decide, c1_idempotent_amended id ("Hello, 123".toList) rfl (by decide)⟩

/-- Claim C2 (code bug): `re.sub(r'\s+', ' ', ·)` runs before the line-break
rule and already replaces every newline by a plain space, so newlines do not
survive `normalize_text`: the two-line input `a\nb` normalizes to the single
line `a b`, and splitting the result on newlines yields one line, not the
two corresponding lines.  (The subsequent `re.sub(r'\n\s*', '\n', ·)` in the
source can never fire.) -/
theorem c2_newlines_destroyed :
    normalize_text id ("a\nb".toList) = "a b".toList ∧
    (normalize_text id ("a\nb".toList)).splitOn '\n' = ["a b".toList] ∧
    (normalize_text id ("a\nb".toList)).splitOn '\n' ≠ ["a".toList, "b".toList] := by
  decide
